import Mathlib

/-!
Shallow embedding of the face-recognition gallery and storage-cleanup logic
of blink-sync-brain (`core/face_recognition.py`, `core/storage_manager.py`,
`models/face_data.py`), together with theorems checking the specification's
claims about them.

Conventions of the embedding:
* Face encodings are vectors of rationals (`List ℚ`).  The library call
  `face_recognition.face_distance` computes the Euclidean norm; since the
  norm itself is irrational, every comparison `dist ≤ t` that the source
  performs is embedded as `sqrtLe (dist2 a b) t`, i.e. `0 ≤ t ∧ dist2 ≤ t²`,
  which is equivalent because distances are non-negative and squaring is
  monotone on non-negative rationals.
* Timestamps are integers (`datetime.now()` becomes an explicit parameter).
* Fallible per-file filesystem operations carry an explicit `fails` flag on
  the file, standing for the `stat`/`unlink` call raising inside the
  per-file `try` block.
-/

namespace BlinkSync

/-- squared Euclidean distance between two encodings; stands for the square
of `face_recognition.face_distance` (`np.linalg.norm(a - b)`). -/
def dist2 (a b : List ℚ) : ℚ :=
  (List.zipWith (fun x y => (x - y) ^ 2) a b).sum

/-- embedded form of the comparison `sqrt d2 ≤ t` for a squared distance
`d2 ≥ 0`: true iff `0 ≤ t` and `d2 ≤ t ^ 2`. -/
def sqrtLeB (d2 t : ℚ) : Bool :=
  decide (0 ≤ t) && decide (d2 ≤ t ^ 2)

/-- index of the first minimum of a list, following `np.argmin` (returns the
first index attaining the minimal value; 0 on the empty list). -/
def argminIdx : List ℚ → ℕ
  | [] => 0
  | [_] => 0
  | x :: y :: rest =>
    let j := argminIdx (y :: rest)
    if x ≤ (y :: rest).getD j 0 then 0 else j + 1

/-- record stored for each enrolled person, from `models/face_data.py`
(`KnownFace`).  `added_date` and `last_seen` are integer timestamps. -/
structure KnownFace where
  name : String
  encoding : List ℚ
  description : String := ""
  confidence_threshold : ℚ := 6 / 10
  added_date : Option ℤ := none
  image_path : Option String := none
  last_seen : Option ℤ := none
  detection_count : ℕ := 0
  deriving DecidableEq

/-- placeholder record used as the default value of lookups with `List.getD`. -/
def dfltFace : KnownFace :=
  { name := "", encoding := [] }

/-- `KnownFace.update_detection`: sets the last-seen timestamp and increments
the cumulative detection count. -/
def updateDetection (kf : KnownFace) (t : ℤ) : KnownFace :=
  { kf with last_seen := some t, detection_count := kf.detection_count + 1 }

/-- mutable state of `FaceRecognitionEngine`: the three parallel gallery
lists, the configured database path and the loaded flag. -/
structure Engine where
  known_faces : List KnownFace
  face_encodings : List (List ℚ)
  face_names : List String
  model_path : Option String := none
  is_loaded : Bool := false
  deriving DecidableEq

/-- gallery invariant: the name list and the encoding list are the index-wise
projections of the record list (equal lengths and index alignment). -/
def Aligned (e : Engine) : Prop :=
  e.face_names = e.known_faces.map KnownFace.name ∧
  e.face_encodings = e.known_faces.map KnownFace.encoding

instance (e : Engine) : Decidable (Aligned e) := by
  unfold Aligned; infer_instance

/-- `FaceRecognitionEngine.recognize_face`: returns "Unknown" when the
gallery is unloaded or empty; otherwise compares the query with every stored
encoding at the given tolerance, takes the first index of minimal distance
(`np.argmin`), re-checks that this best index matched, and returns the
selected record's name exactly when `1 - distance` meets that record's own
`confidence_threshold`.  The comparisons `distance ≤ tolerance` and
`1 - distance ≥ threshold` (the latter rewritten `distance ≤ 1 - threshold`)
are embedded through `sqrtLeB` on squared distances.  An out-of-range access
into `known_faces` raises in the source and is caught by the handler that
returns "Unknown"; it is embedded as the `none` branch of `List.get?`. -/
def recognizeFace (e : Engine) (enc : List ℚ) (tol : ℚ) : String :=
  if !e.is_loaded || e.face_encodings.isEmpty then "Unknown"
  else
    let matchesL := e.face_encodings.map (fun k => sqrtLeB (dist2 k enc) tol)
    if matchesL.contains true then
      let face_distances := e.face_encodings.map (fun k => dist2 k enc)
      let best := argminIdx face_distances
      if matchesL.getD best false then
        match e.known_faces.get? best with
        | none => "Unknown"
        | some kf =>
          if sqrtLeB (face_distances.getD best 0) (1 - kf.confidence_threshold)
          then kf.name
          else "Unknown"
      else "Unknown"
    else "Unknown"

/-- state-threaded form of `recognize_face`.  The source method only reads
`self`: it performs no assignment to any field and calls no mutating method
(in particular it never calls `update_detection`), so the threaded state is
returned unchanged next to the computed name. -/
def recognizeFaceS (e : Engine) (enc : List ℚ) (tol : ℚ) : Engine × String :=
  (e, recognizeFace e enc tol)

/-- rendition of the specification's wording for `match`: if the gallery is
empty or unloaded return "Unknown"; otherwise compute the distance to every
gallery encoding, and if some distance is within tolerance select the single
closest entry, ties broken by first occurrence in gallery order (the first
index whose distance is below every other), returning that entry's name
exactly when `1 - distance` meets that entry's own threshold. -/
def specMatch (e : Engine) (enc : List ℚ) (tol : ℚ) : String :=
  if e.is_loaded && !e.face_encodings.isEmpty then
    let dists := e.face_encodings.map (fun k => dist2 k enc)
    if dists.any (fun d => sqrtLeB d tol) then
      let sel := (List.range dists.length).find?
        (fun j => decide (∀ k < dists.length, dists.getD j 0 ≤ dists.getD k 0))
      match sel with
      | none => "Unknown"
      | some j =>
        let entry := e.known_faces.getD j dfltFace
        if sqrtLeB (dists.getD j 0) (1 - entry.confidence_threshold)
        then entry.name
        else "Unknown"
    else "Unknown"
  else "Unknown"

/-- `FaceRecognitionEngine.add_known_face` after image processing.  The
image load and face detection either raise or find no face, in which case
the method returns `false` having touched nothing (`detection = none`), or
produce the encoding of the first detected face (`detection = some fe`), in
which case one `KnownFace` record is built and appended to the three lists
and the method returns `true`.  The trailing `save_face_database` call does
not modify the gallery lists. -/
def addKnownFace (e : Engine) (name : String) (detection : Option (List ℚ))
    (description : String) (th : ℚ) (now : ℤ) (imagePath : String) :
    Engine × Bool :=
  match detection with
  | none => (e, false)
  | some fe =>
    let kf : KnownFace :=
      { name := name, encoding := fe, description := description,
        confidence_threshold := th, added_date := some now,
        image_path := some imagePath, last_seen := none, detection_count := 0 }
    ({ e with known_faces := e.known_faces ++ [kf],
              face_encodings := e.face_encodings ++ [fe],
              face_names := e.face_names ++ [name] }, true)

/-- deletion of a list of indices, processed by folding `List.eraseIdx` over
the reversed index list; embeds the loop
`for i in reversed(indices_to_remove): del lst[i]`. -/
def eraseIdxsRev (l : List α) (idxs : List ℕ) : List α :=
  idxs.reverse.foldl (fun acc i => acc.eraseIdx i) l

/-- `FaceRecognitionEngine.remove_known_face`: collects the indices of every
name equal to the argument in ascending order, deletes them from all three
lists in reverse order, and returns `true` (no statement in the body raises,
so the handler returning `false` is unreachable). -/
def removeKnownFace (e : Engine) (name : String) : Engine × Bool :=
  let idxs := (List.range e.face_names.length).filter
    (fun i => e.face_names.getD i "" == name)
  ({ e with face_names := eraseIdxsRev e.face_names idxs,
            face_encodings := eraseIdxsRev e.face_encodings idxs,
            known_faces := eraseIdxsRev e.known_faces idxs }, true)

/-- body of `save_face_database` inside its `try` block, as an `Except`:
with no configured `model_path` it raises `RuntimeError("No database path
specified")`; otherwise directory creation, serialization and the file write
either raise (`writeFails = true`, covering any I/O error) or succeed with
`True`. -/
def saveBody (e : Engine) (writeFails : Bool) : Except String Bool :=
  match e.model_path with
  | none => Except.error "No database path specified"
  | some _ => if writeFails then Except.error "write failed" else Except.ok true

/-- `FaceRecognitionEngine.save_face_database`: runs the body and converts
any raised exception into the ordinary return value `false`; no exception
escapes to the caller. -/
def saveFaceDatabase (e : Engine) (writeFails : Bool) : Bool :=
  match saveBody e writeFails with
  | Except.ok b => b
  | Except.error _ => false

/-- deserialized contents of the pickled database file: each of the three
keys may be missing (`data.get` with default `[]`). -/
structure DBData where
  known_faces : Option (List KnownFace) := none
  encodings : Option (List (List ℚ)) := none
  names : Option (List String) := none
  deriving DecidableEq

/-- `FaceRecognitionEngine.load_face_database` at an explicit path with the
file contents passed in (`file = none` means the path does not exist, in
which case `_create_new_database` resets the three lists, saves, and marks
the engine loaded).  Each list is read with `data.get(key, [])`; no check
relates the three lengths.  Both branches return `true`. -/
def loadFaceDatabase (e : Engine) (path : String) (file : Option DBData) :
    Engine × Bool :=
  match file with
  | none =>
    ({ e with model_path := some path, known_faces := [],
              face_encodings := [], face_names := [], is_loaded := true }, true)
  | some d =>
    ({ e with model_path := some path,
              known_faces := d.known_faces.getD [],
              face_encodings := d.encodings.getD [],
              face_names := d.names.getD [],
              is_loaded := true }, true)

/-- result record of `validate_database`. -/
structure ValidationResult where
  is_valid : Bool
  errors : List String
  warnings : List String
  deriving DecidableEq

/-- names in order of first occurrence (insertion order of the Python
counting dict). -/
def dedupFirst (l : List String) : List String :=
  l.foldl (fun acc x => if acc.contains x then acc else acc ++ [x]) []

/-- `FaceRecognitionEngine.validate_database`: flips `is_valid` to false on
either list-length mismatch; warns once per duplicated name; appends an
"Invalid encoding at index i" error for every empty encoding without
touching `is_valid` (a `None` entry is not representable here since
encodings are typed lists; the `len(encoding) == 0` test is `List.isEmpty`). -/
def validateDatabase (e : Engine) : ValidationResult :=
  let r0 : ValidationResult := ⟨true, [], []⟩
  let r1 := if e.known_faces.length ≠ e.face_encodings.length
    then { r0 with is_valid := false, errors := r0.errors ++ ["Face count mismatch"] }
    else r0
  let r2 := if e.face_encodings.length ≠ e.face_names.length
    then { r1 with is_valid := false, errors := r1.errors ++ ["Name count mismatch"] }
    else r1
  let warns := ((dedupFirst e.face_names).filter
    (fun n => 1 < e.face_names.count n)).map
    (fun n => "Multiple encodings for " ++ n)
  let encErrors := ((List.range e.face_encodings.length).filter
    (fun i => (e.face_encodings.getD i []).isEmpty)).map
    (fun i => "Invalid encoding at index " ++ toString i)
  { r2 with warnings := r2.warnings ++ warns,
            errors := r2.errors ++ encErrors }

/-- file as seen by the cleanup sweep: path, size in bytes, modification
time, and a flag marking that the per-file `stat`/`unlink` raises. -/
structure MFile where
  path : String
  size : ℕ
  mtime : ℤ
  fails : Bool := false
  deriving DecidableEq

/-- results dictionary shared by `cleanup_old_files` and
`_cleanup_directory`. -/
structure CleanupResults where
  files_processed : ℕ := 0
  files_deleted : ℕ := 0
  bytes_freed : ℕ := 0
  errors : List String := []
  deleted_files : List String := []
  deriving DecidableEq

/-- `StorageManager._cleanup_directory` over the directory's files in
traversal order: each file counts as processed; a raising `stat`/`unlink`
records an error and moves on; a file strictly older than the cutoff is
counted, its size accumulated and its path recorded, and it is removed from
the directory unless `dry` is set. -/
def cleanupDirectory (cutoff : ℤ) (dry : Bool) :
    List MFile → List MFile × CleanupResults
  | [] => ([], {})
  | f :: fs =>
    let (fs', r) := cleanupDirectory cutoff dry fs
    if f.fails then
      (f :: fs', { r with files_processed := r.files_processed + 1,
                          errors := ("Failed to process " ++ f.path) :: r.errors })
    else if f.mtime < cutoff then
      let r' : CleanupResults :=
        { files_processed := r.files_processed + 1,
          files_deleted := r.files_deleted + 1,
          bytes_freed := r.bytes_freed + f.size,
          errors := r.errors,
          deleted_files := f.path :: r.deleted_files }
      if dry then (f :: fs', r') else (fs', r')
    else
      (f :: fs', { r with files_processed := r.files_processed + 1 })

/-- state of `StorageManager`: the managed video and results directories
(`none` when the directory does not exist) and the retention policy,
expressed directly in the time unit of `mtime` (the source converts
`retention_days` through `timedelta`). -/
structure Storage where
  video : Option (List MFile)
  results : Option (List MFile)
  retention : ℤ
  deriving DecidableEq

/-- accumulation of a directory's results into the running totals, in the
order the source extends the dictionaries. -/
def mergeResults (a b : CleanupResults) : CleanupResults :=
  { files_processed := a.files_processed + b.files_processed,
    files_deleted := a.files_deleted + b.files_deleted,
    bytes_freed := a.bytes_freed + b.bytes_freed,
    errors := a.errors ++ b.errors,
    deleted_files := a.deleted_files ++ b.deleted_files }

/-- `StorageManager.cleanup_old_files`: computes the cutoff from the current
time and the retention policy, then sweeps the video directory and the
results directory (each only if it exists) accumulating the results. -/
def cleanupOldFiles (s : Storage) (now : ℤ) (dry : Bool) :
    Storage × CleanupResults :=
  let cutoff := now - s.retention
  let (v', rv) := match s.video with
    | none => (none, ({} : CleanupResults))
    | some fs => let (fs', r) := cleanupDirectory cutoff dry fs; (some fs', r)
  let (w', rw) := match s.results with
    | none => (none, ({} : CleanupResults))
    | some fs => let (fs', r) := cleanupDirectory cutoff dry fs; (some fs', r)
  ({ video := v', results := w', retention := s.retention },
   mergeResults rv rw)

/-- deletion criterion of a single file at a given cutoff: strictly older
than the cutoff and the per-file operations do not raise. -/
def delB (cutoff : ℤ) (f : MFile) : Bool :=
  decide (f.mtime < cutoff) && !f.fails

/-- positional filter used to characterize `eraseIdxsRev`: drops the
elements whose index satisfies `q`. -/
def filterIdx (q : ℕ → Bool) : List α → List α
  | [] => []
  | x :: xs =>
    if q 0 then filterIdx (fun i => q (i + 1)) xs
    else x :: filterIdx (fun i => q (i + 1)) xs

/-- loaded single-entry gallery whose only face "alice" carries a
`confidence_threshold` of 2, above any achievable confidence. -/
def exEngineHighTh : Engine :=
  { known_faces := [{ name := "alice", encoding := [0], confidence_threshold := 2 }],
    face_encodings := [[0]],
    face_names := ["alice"],
    model_path := some "faces.db",
    is_loaded := true }

/-- loaded single-entry gallery whose only face "alice" has the default-like
threshold 1/2, zero detections and no last-seen timestamp. -/
def exEngineOk : Engine :=
  { known_faces := [{ name := "alice", encoding := [0], confidence_threshold := 1 / 2 }],
    face_encodings := [[0]],
    face_names := ["alice"],
    model_path := some "faces.db",
    is_loaded := true }

/-- engine fresh from the constructor: no configured database path. -/
def exEngineNoPath : Engine :=
  { known_faces := [], face_encodings := [], face_names := [] }

/-- pickled file contents whose three lists disagree in length: one record,
an empty encoding list, and no "names" key at all. -/
def exDBBad : DBData :=
  { known_faces := some [{ name := "alice", encoding := [0] }],
    encodings := some [],
    names := none }

/-- aligned gallery whose single entry has an empty encoding. -/
def exEngineEmptyEnc : Engine :=
  { known_faces := [{ name := "alice", encoding := [] }],
    face_encodings := [[]],
    face_names := ["alice"],
    model_path := some "faces.db",
    is_loaded := true }

/-- small aligned two-person gallery used to instantiate theorems with
hypotheses on concrete inputs. -/
def exEngineTwo : Engine :=
  { known_faces :=
      [{ name := "alice", encoding := [0, 0], confidence_threshold := 1 / 2 },
       { name := "bob", encoding := [1, 0], confidence_threshold := 1 / 2 }],
    face_encodings := [[0, 0], [1, 0]],
    face_names := ["alice", "bob"],
    model_path := some "faces.db",
    is_loaded := true }

/-- closed form of one directory sweep: the surviving files are the input
(dry mode) or the input minus the deletion candidates, and the counters,
byte total, error list and deletion log are computed from the traversal
order.  The counters are the same in both modes; only the surviving list
differs. -/
theorem cleanupDirectory_eq (cutoff : ℤ) (dry : Bool) (fs : List MFile) :
    cleanupDirectory cutoff dry fs =
      ((if dry then fs else fs.filter (fun f => !(delB cutoff f))),
       { files_processed := fs.length,
         files_deleted := (fs.filter (delB cutoff)).length,
         bytes_freed := ((fs.filter (delB cutoff)).map MFile.size).sum,
         errors := (fs.filter MFile.fails).map
           (fun f => "Failed to process " ++ f.path),
         deleted_files := (fs.filter (delB cutoff)).map MFile.path }) := by
  induction fs with
  | nil => cases dry <;> rfl
  | cons f fs ih =>
    simp only [cleanupDirectory, ih]
    by_cases hf : f.fails
    · cases dry <;> simp [delB, hf, List.filter_cons]
    · by_cases hm : f.mtime < cutoff
      · cases dry <;> simp [delB, hf, hm, List.filter_cons, Nat.add_comm]
      · cases dry <;> simp [delB, hf, hm, List.filter_cons]

/-- filtering by a predicate after keeping only its complement yields the
empty list. -/
theorem filter_not_filter (p : α → Bool) (l : List α) :
    (l.filter (fun a => !(p a))).filter p = [] := by
  induction l with
  | nil => rfl
  | cons a l ih => by_cases h : p a <;> simp [List.filter_cons, h, ih]

/-- closed form of a whole cleanup run over both managed directories. -/
theorem cleanupOldFiles_eq (s : Storage) (now : ℤ) (dry : Bool) :
    cleanupOldFiles s now dry =
      ({ video := s.video.map
           (fun fs => if dry then fs
            else fs.filter (fun f => !(delB (now - s.retention) f))),
         results := s.results.map
           (fun fs => if dry then fs
            else fs.filter (fun f => !(delB (now - s.retention) f))),
         retention := s.retention },
       { files_processed := (s.video.getD []).length + (s.results.getD []).length,
         files_deleted :=
           ((s.video.getD []).filter (delB (now - s.retention))).length
             + ((s.results.getD []).filter (delB (now - s.retention))).length,
         bytes_freed :=
           (((s.video.getD []).filter (delB (now - s.retention))).map MFile.size).sum
             + (((s.results.getD []).filter (delB (now - s.retention))).map MFile.size).sum,
         errors :=
           ((s.video.getD []).filter MFile.fails).map
               (fun f => "Failed to process " ++ f.path)
             ++ ((s.results.getD []).filter MFile.fails).map
               (fun f => "Failed to process " ++ f.path),
         deleted_files :=
           ((s.video.getD []).filter (delB (now - s.retention))).map MFile.path
             ++ ((s.results.getD []).filter (delB (now - s.retention))).map MFile.path }) := by
  obtain ⟨v, r, ret⟩ := s
  cases v <;> cases r <;>
    simp [cleanupOldFiles, cleanupDirectory_eq, mergeResults]

/-- C2: `cleanup(dry_run=True)` leaves the storage state unchanged;
`cleanup(dry_run=False)` removes from each existing managed directory
exactly the files strictly older than `now - retention` whose per-file
operations do not raise; `bytes_freed` is the sum of the sizes of the
deleted files, every file is processed (the sweep is not aborted), and one
error entry is recorded per raising file. -/
theorem cleanup_deletes_exactly_old_files (s : Storage) (now : ℤ) :
    (cleanupOldFiles s now true).1 = s ∧
    (cleanupOldFiles s now false).1 =
      { video := s.video.map (List.filter (fun f => !(delB (now - s.retention) f))),
        results := s.results.map (List.filter (fun f => !(delB (now - s.retention) f))),
        retention := s.retention } ∧
    (cleanupOldFiles s now false).2.files_deleted =
      ((s.video.getD []).filter (delB (now - s.retention))).length
        + ((s.results.getD []).filter (delB (now - s.retention))).length ∧
    (cleanupOldFiles s now false).2.bytes_freed =
      (((s.video.getD []).filter (delB (now - s.retention))).map MFile.size).sum
        + (((s.results.getD []).filter (delB (now - s.retention))).map MFile.size).sum ∧
    (cleanupOldFiles s now false).2.files_processed =
      (s.video.getD []).length + (s.results.getD []).length ∧
    (cleanupOldFiles s now false).2.errors =
      ((s.video.getD []).filter MFile.fails).map
          (fun f => "Failed to process " ++ f.path)
        ++ ((s.results.getD []).filter MFile.fails).map
          (fun f => "Failed to process " ++ f.path) := by
  refine ⟨?_, ?_, ?_, ?_, ?_, ?_⟩ <;>
    simp [cleanupOldFiles_eq]

/-- C8: a second cleanup run immediately after a first one (same clock
reading, both with `dry_run=False`, nothing added or modified in between)
deletes zero files and frees zero bytes. -/
theorem cleanup_idempotent_second_run_deletes_nothing (s : Storage) (now : ℤ) :
    (cleanupOldFiles (cleanupOldFiles s now false).1 now false).2.files_deleted = 0 ∧
    (cleanupOldFiles (cleanupOldFiles s now false).1 now false).2.bytes_freed = 0 := by
  have hv := filter_not_filter (delB (now - s.retention)) (s.video.getD [])
  have hr := filter_not_filter (delB (now - s.retention)) (s.results.getD [])
  cases hsv : s.video <;> cases hsr : s.results <;>
    simp_all [cleanupOldFiles_eq]

/-- unfolding of the squared distance on cons cells. -/
theorem dist2_cons (x y : ℚ) (a b : List ℚ) :
    dist2 (x :: a) (y :: b) = (x - y) ^ 2 + dist2 a b := by
  simp [dist2]

/-- squared distances are non-negative. -/
theorem dist2_nonneg (a b : List ℚ) : 0 ≤ dist2 a b := by
  induction a generalizing b with
  | nil => simp [dist2]
  | cons x a ih =>
    cases b with
    | nil => simp [dist2]
    | cons y b =>
      rw [dist2_cons]
      have := ih b
      positivity

/-- on equal-length encodings, the squared distance vanishes exactly on
identical encodings. -/
theorem dist2_eq_zero_iff (a b : List ℚ) (h : a.length = b.length) :
    dist2 a b = 0 ↔ a = b := by
  induction a generalizing b with
  | nil =>
    cases b with
    | nil => simp [dist2]
    | cons y b => simp at h
  | cons x a ih =>
    cases b with
    | nil => simp at h
    | cons y b =>
      rw [dist2_cons]
      have hlen : a.length = b.length := by simpa using h
      have h1 : (0 : ℚ) ≤ (x - y) ^ 2 := sq_nonneg _
      have h2 : (0 : ℚ) ≤ dist2 a b := dist2_nonneg a b
      constructor
      · intro hz
        have hx : (x - y) ^ 2 = 0 ∧ dist2 a b = 0 := by
          constructor <;> nlinarith
        have hxy : x = y := by
          have := sq_eq_zero_iff.mp hx.1
          linarith
        have hab : a = b := (ih b hlen).mp hx.2
        rw [hxy, hab]
      · intro he
        injection he with he1 he2
        subst he1; subst he2
        simp [(ih a rfl).mpr rfl]

/-- `argminIdx` on a non-empty list returns an in-range index whose value is
a minimum of the list and is strictly below every value at an earlier
index (first-occurrence tie break, as `np.argmin`). -/
theorem argminIdx_spec (l : List ℚ) (hne : l ≠ []) :
    argminIdx l < l.length ∧
    (∀ i < l.length, l.getD (argminIdx l) 0 ≤ l.getD i 0) ∧
    (∀ i < argminIdx l, l.getD (argminIdx l) 0 < l.getD i 0) := by
  induction l with
  | nil => exact absurd rfl hne
  | cons x xs ih =>
    cases xs with
    | nil =>
      have hz : argminIdx [x] = 0 := rfl
      refine ⟨by simp [hz], ?_, ?_⟩
      · intro i hi
        have hi0 : i = 0 := by simpa using hi
        subst hi0
        simp [hz]
      · intro i hi
        rw [hz] at hi
        omega
    | cons y rest =>
      obtain ⟨h1, h2, h3⟩ := ih (by simp)
      have hdef : argminIdx (x :: y :: rest) =
          if x ≤ (y :: rest).getD (argminIdx (y :: rest)) 0 then 0
          else argminIdx (y :: rest) + 1 := rfl
      by_cases hx : x ≤ (y :: rest).getD (argminIdx (y :: rest)) 0
      · rw [hdef, if_pos hx]
        refine ⟨by simp, ?_, ?_⟩
        · intro i hi
          cases i with
          | zero => simp
          | succ k =>
            have hk : k < (y :: rest).length := by simpa using hi
            have := h2 k hk
            simp only [List.getD_cons_zero, List.getD_cons_succ]
            linarith
        · intro i hi
          omega
      · rw [hdef, if_neg hx]
        push_neg at hx
        refine ⟨by simpa using h1, ?_, ?_⟩
        · intro i hi
          cases i with
          | zero =>
            simp only [List.getD_cons_zero, List.getD_cons_succ]
            linarith
          | succ k =>
            have hk : k < (y :: rest).length := by simpa using hi
            have := h2 k hk
            simp only [List.getD_cons_succ]
            linarith
        · intro i hi
          cases i with
          | zero =>
            simp only [List.getD_cons_zero, List.getD_cons_succ]
            linarith
          | succ k =>
            have hk : k < argminIdx (y :: rest) := by omega
            have := h3 k hk
            simp only [List.getD_cons_succ]
            linarith

/-- characterization of `argminIdx`: any in-range index whose value is a
minimum and strictly below all earlier values is the argmin. -/
theorem argminIdx_eq_of (l : List ℚ) (i : ℕ) (hi : i < l.length)
    (hmin : ∀ k < l.length, l.getD i 0 ≤ l.getD k 0)
    (hfirst : ∀ k < i, l.getD i 0 < l.getD k 0) :
    argminIdx l = i := by
  have hne : l ≠ [] := by
    intro h; rw [h] at hi; simp at hi
  obtain ⟨h1, h2, h3⟩ := argminIdx_spec l hne
  rcases Nat.lt_trichotomy (argminIdx l) i with h | h | h
  · have ha := hfirst _ h
    have hb := h2 i hi
    linarith
  · exact h
  · have ha := h3 i h
    have hb := hmin _ h1
    linarith

/-- monotonicity of the embedded square-root comparison in the squared
distance. -/
theorem sqrtLeB_mono {d2 d2' t : ℚ} (hle : d2' ≤ d2)
    (h : sqrtLeB d2 t = true) : sqrtLeB d2' t = true := by
  simp only [sqrtLeB, Bool.and_eq_true, decide_eq_true_eq] at h ⊢
  exact ⟨h.1, le_trans hle h.2⟩

/-- membership of `true` in a boolean list is `any id`. -/
theorem contains_true_eq_any_id (l : List Bool) : l.contains true = l.any id := by
  induction l with
  | nil => rfl
  | cons a l ih => cases a <;> simp_all [List.contains_cons]

/-- `any` of a mapped list. -/
theorem any_map_id (f : α → Bool) (l : List α) : (l.map f).any id = l.any f := by
  induction l with
  | nil => rfl
  | cons a l ih => simp_all [List.any_cons]

/-- `getD` through a map, for an in-range index. -/
theorem getD_map_of_lt (f : α → β) (l : List α) (i : ℕ) (d : α) (d' : β)
    (h : i < l.length) : (l.map f).getD i d' = f (l.getD i d) := by
  induction l generalizing i with
  | nil => simp at h
  | cons a l ih =>
    cases i with
    | zero => simp
    | succ k => simpa using ih k (by simpa using h)

/-- `get?` at an in-range index is `some` of the `getD` value. -/
theorem get?_eq_some_getD (l : List α) (i : ℕ) (d : α) (h : i < l.length) :
    l.get? i = some (l.getD i d) := by
  induction l generalizing i with
  | nil => simp at h
  | cons a l ih =>
    cases i with
    | zero => simp
    | succ k => simpa using ih k (by simpa using h)

/-- the spec-side selection (`find?` of the first index whose distance is
below every other) returns exactly `argminIdx` on a non-empty list. -/
theorem find?_min_eq_argminIdx (dists : List ℚ) (hne : dists ≠ []) :
    (List.range dists.length).find?
        (fun j => decide (∀ k < dists.length, dists.getD j 0 ≤ dists.getD k 0))
      = some (argminIdx dists) := by
  obtain ⟨h1, h2, h3⟩ := argminIdx_spec dists hne
  rw [List.find?_range_eq_some]
  refine ⟨by simpa using h2, by simpa using h1, ?_⟩
  intro j hj
  simp only [Bool.not_eq_true', decide_eq_false_iff_not, not_forall]
  refine ⟨argminIdx dists, h1, ?_⟩
  have := h3 j hj
  push_neg
  linarith

/-- any of a mapped list, general predicate. -/
theorem any_map' (f : α → β) (p : β → Bool) (l : List α) :
    (l.map f).any p = l.any (fun a => p (f a)) := by
  induction l with
  | nil => rfl
  | cons a l ih => simp_all [List.any_cons]

/-- C1: on a gallery whose record list and encoding list have equal length,
`recognize_face` computes exactly the behaviour stated by the spec
(`specMatch`): "Unknown" for an unloaded or empty gallery, otherwise the
distance to every gallery encoding is computed, and when some distance is
within tolerance the single closest entry (ties broken by first occurrence
in gallery order) gives its name exactly when `1 - distance` meets that
entry's own `confidence_threshold`, with "Unknown" in every other case. -/
theorem recognizeFace_eq_specMatch (e : Engine) (enc : List ℚ) (tol : ℚ)
    (h : e.known_faces.length = e.face_encodings.length) :
    recognizeFace e enc tol = specMatch e enc tol := by
  by_cases hl : e.is_loaded = true
  case neg =>
    have hl' : e.is_loaded = false := by
      cases hb : e.is_loaded
      · rfl
      · exact absurd hb hl
    simp [recognizeFace, specMatch, hl']
  case pos =>
  by_cases hemp : e.face_encodings.isEmpty = true
  case pos => simp [recognizeFace, specMatch, hl, hemp]
  case neg =>
  have hemp' : e.face_encodings.isEmpty = false := by
    cases hb : e.face_encodings.isEmpty
    · rfl
    · exact absurd hb hemp
  have hne : e.face_encodings ≠ [] := by
    intro hnil; rw [hnil] at hemp'; simp at hemp'
  have hdne : e.face_encodings.map (fun k => dist2 k enc) ≠ [] := by
    simpa using hne
  have hmatch : (e.face_encodings.map (fun k => sqrtLeB (dist2 k enc) tol)).contains true
      = (e.face_encodings.map (fun k => dist2 k enc)).any (fun d => sqrtLeB d tol) := by
    rw [contains_true_eq_any_id, any_map', any_map']
    rfl
  set dists := e.face_encodings.map (fun k => dist2 k enc) with hdists
  set best := argminIdx dists with hbest
  have hblt : best < dists.length := (argminIdx_spec dists hdne).1
  have hblt' : best < e.face_encodings.length := by
    simpa [hdists] using hblt
  have hbltk : best < e.known_faces.length := by omega
  have hdval : dists.getD best 0 = dist2 (e.face_encodings.getD best []) enc := by
    rw [hdists, getD_map_of_lt (fun k => dist2 k enc) _ best [] 0 hblt']
  have hmval : (e.face_encodings.map (fun k => sqrtLeB (dist2 k enc) tol)).getD best false
      = sqrtLeB (dists.getD best 0) tol := by
    rw [getD_map_of_lt (fun k => sqrtLeB (dist2 k enc) tol) _ best [] false hblt', hdval]
  have hget : e.known_faces.get? best = some (e.known_faces.getD best dfltFace) :=
    get?_eq_some_getD _ _ _ hbltk
  have hfind := find?_min_eq_argminIdx dists hdne
  by_cases hc : dists.any (fun d => sqrtLeB d tol) = true
  case pos =>
    have hsqb : sqrtLeB (dists.getD best 0) tol = true := by
      rcases List.any_eq_true.mp hc with ⟨d, hdmem, hd⟩
      rcases List.getElem_of_mem hdmem with ⟨j, hj, hjval⟩
      have hmin := (argminIdx_spec dists hdne).2.1 j hj
      have hjd : dists.getD j 0 = d := by
        rw [List.getD_eq_getElem?_getD]
        simp [List.getElem?_eq_getElem hj, hjval]
      exact sqrtLeB_mono (by rw [← hjd]; exact hmin) hd
    unfold recognizeFace specMatch
    rw [hl]
    simp only [hemp', Bool.not_true, Bool.or_false, Bool.false_eq_true, if_false,
      Bool.true_and, Bool.not_false, if_true]
    rw [← hdists, hmatch, hc, ← hbest, hfind]
    simp only [if_true]
    rw [hmval, hsqb, hget]
    simp
  case neg =>
    have hc' : dists.any (fun d => sqrtLeB d tol) = false := by
      cases hb : dists.any (fun d => sqrtLeB d tol)
      · rfl
      · exact absurd hb hc
    unfold recognizeFace specMatch
    rw [hl]
    simp only [hemp', Bool.not_true, Bool.or_false, Bool.false_eq_true, if_false,
      Bool.true_and, Bool.not_false, if_true]
    rw [← hdists, hmatch, hc']
    simp

/-- folding index deletion over shifted indices keeps the head and acts on
the tail. -/
theorem foldl_eraseIdx_succ (x : α) (js : List ℕ) (l : List α) :
    (js.map Nat.succ).foldl (fun acc i => acc.eraseIdx i) (x :: l)
      = x :: js.foldl (fun acc i => acc.eraseIdx i) l := by
  induction js generalizing l with
  | nil => rfl
  | cons j js ih => simp [List.foldl_cons, ih]

/-- erasing a batch of successor indices from a cons cell keeps the head
and erases the shifted indices from the tail. -/
theorem eraseIdxsRev_map_succ (x : α) (xs : List α) (idxs : List ℕ) :
    eraseIdxsRev (x :: xs) (idxs.map Nat.succ) = x :: eraseIdxsRev xs idxs := by
  unfold eraseIdxsRev
  rw [← List.map_reverse]
  exact foldl_eraseIdx_succ x idxs.reverse xs

/-- appended index batches are erased right batch first (the fold runs over
the reversed list). -/
theorem eraseIdxsRev_append (l : List α) (a b : List ℕ) :
    eraseIdxsRev l (a ++ b) = eraseIdxsRev (eraseIdxsRev l b) a := by
  unfold eraseIdxsRev
  rw [List.reverse_append, List.foldl_append]

/-- reverse-order deletion of the ascending index set selected by a
positional predicate is the positional filter. -/
theorem eraseIdxsRev_range_filter (q : ℕ → Bool) (l : List α) :
    eraseIdxsRev l ((List.range l.length).filter q) = filterIdx q l := by
  induction l generalizing q with
  | nil => rfl
  | cons x xs ih =>
    have hrange : (List.range (x :: xs).length).filter q
        = ((if q 0 then [0] else []) ++
            ((List.range xs.length).filter (fun i => q (i + 1))).map Nat.succ) := by
      rw [List.length_cons, List.range_succ_eq_map, List.filter_cons,
        List.filter_map]
      rcases hq0 : q 0 <;> simp [Function.comp_def, Nat.succ_eq_add_one]
    rw [hrange, eraseIdxsRev_append, eraseIdxsRev_map_succ, ih]
    rcases hq0 : q 0 with _ | _
    · simp [filterIdx, hq0, eraseIdxsRev]
    · simp [filterIdx, hq0, eraseIdxsRev]

/-- variant of `eraseIdxsRev_range_filter` taking any expression equal to
the list's length. -/
theorem eraseIdxsRev_range_filter' (q : ℕ → Bool) (l : List α) (n : ℕ)
    (hn : n = l.length) :
    eraseIdxsRev l ((List.range n).filter q) = filterIdx q l := by
  subst hn
  exact eraseIdxsRev_range_filter q l

/-- when the positional predicate is a pointwise predicate on the list's own
entries, the positional filter is an ordinary filter on the complement. -/
theorem filterIdx_eq_filter (q : ℕ → Bool) (p : α → Bool) (d : α) (l : List α)
    (hq : ∀ i < l.length, q i = p (l.getD i d)) :
    filterIdx q l = l.filter (fun x => !(p x)) := by
  induction l generalizing q with
  | nil => rfl
  | cons x xs ih =>
    have h0 : q 0 = p x := by simpa using hq 0 (by simp)
    have htail : ∀ i < xs.length, q (i + 1) = p (xs.getD i d) := by
      intro i hi
      simpa using hq (i + 1) (by simpa using Nat.succ_lt_succ hi)
    rcases hpx : p x <;>
      simp [filterIdx, h0, hpx, List.filter_cons, ih (fun i => q (i + 1)) htail]

/-- the positional filter commutes with `map`. -/
theorem filterIdx_map (q : ℕ → Bool) (f : α → β) (l : List α) :
    filterIdx q (l.map f) = (filterIdx q l).map f := by
  induction l generalizing q with
  | nil => rfl
  | cons x xs ih =>
    rcases hq0 : q 0 <;> simp [filterIdx, hq0, ih]

/-- closed form of `remove_known_face` on an aligned gallery: all three
lists lose exactly the entries whose name equals the argument, and the call
reports success. -/
theorem removeKnownFace_eq (e : Engine) (nm : String) (hA : Aligned e) :
    removeKnownFace e nm =
      ({ e with
          known_faces := e.known_faces.filter (fun kf => !(kf.name == nm)),
          face_names :=
            (e.known_faces.filter (fun kf => !(kf.name == nm))).map KnownFace.name,
          face_encodings :=
            (e.known_faces.filter (fun kf => !(kf.name == nm))).map KnownFace.encoding },
        true) := by
  obtain ⟨hn, he⟩ := hA
  have hlen_n : e.face_names.length = e.known_faces.length := by
    rw [hn, List.length_map]
  have hq : ∀ i < e.known_faces.length,
      (fun i => e.face_names.getD i "" == nm) i
        = ((fun kf => kf.name == nm) (e.known_faces.getD i dfltFace)) := by
    intro i hi
    have hv : e.face_names.getD i "" = (e.known_faces.getD i dfltFace).name := by
      rw [hn, getD_map_of_lt KnownFace.name _ i dfltFace "" hi]
    simp only [hv]
  have hfilter : filterIdx (fun i => e.face_names.getD i "" == nm) e.known_faces
      = e.known_faces.filter (fun kf => !(kf.name == nm)) :=
    filterIdx_eq_filter _ (fun kf => kf.name == nm) dfltFace e.known_faces hq
  have hfaces : eraseIdxsRev e.known_faces
        ((List.range e.face_names.length).filter (fun i => e.face_names.getD i "" == nm))
      = e.known_faces.filter (fun kf => !(kf.name == nm)) := by
    rw [eraseIdxsRev_range_filter' _ _ _ hlen_n, hfilter]
  have hnames : eraseIdxsRev e.face_names
        ((List.range e.face_names.length).filter (fun i => e.face_names.getD i "" == nm))
      = (e.known_faces.filter (fun kf => !(kf.name == nm))).map KnownFace.name := by
    rw [eraseIdxsRev_range_filter' _ _ _ rfl,
      congrArg (filterIdx (fun i => e.face_names.getD i "" == nm)) hn,
      filterIdx_map, hfilter]
  have hencs : eraseIdxsRev e.face_encodings
        ((List.range e.face_names.length).filter (fun i => e.face_names.getD i "" == nm))
      = (e.known_faces.filter (fun kf => !(kf.name == nm))).map KnownFace.encoding := by
    have hlen_e : e.face_names.length = e.face_encodings.length := by
      rw [hn, he, List.length_map, List.length_map]
    rw [eraseIdxsRev_range_filter' _ _ _ hlen_e,
      congrArg (filterIdx (fun i => e.face_names.getD i "" == nm)) he,
      filterIdx_map, hfilter]
  simp only [removeKnownFace]
  rw [hfaces, hnames, hencs]

/-- C6: on an aligned gallery, `remove(name)` deletes every record whose
name equals the argument from all three lists in lockstep, reports success,
and is a no-op on the gallery state when no record carries that name. -/
theorem removeKnownFace_removes_all_matching (e : Engine) (nm : String)
    (hA : Aligned e) :
    removeKnownFace e nm =
      ({ e with
          known_faces := e.known_faces.filter (fun kf => !(kf.name == nm)),
          face_names :=
            (e.known_faces.filter (fun kf => !(kf.name == nm))).map KnownFace.name,
          face_encodings :=
            (e.known_faces.filter (fun kf => !(kf.name == nm))).map KnownFace.encoding },
        true) ∧
    (nm ∉ e.face_names → removeKnownFace e nm = (e, true)) := by
  refine ⟨removeKnownFace_eq e nm hA, ?_⟩
  intro habs
  rw [removeKnownFace_eq e nm hA]
  have hall : ∀ kf ∈ e.known_faces, (!(kf.name == nm)) = true := by
    intro kf hkf
    have : kf.name ∈ e.face_names := by
      rw [hA.1]; exact List.mem_map_of_mem KnownFace.name hkf
    have hne : kf.name ≠ nm := by
      intro hcontra; rw [hcontra] at this; exact habs this
    simp [hne]
  have hfix : e.known_faces.filter (fun kf => !(kf.name == nm)) = e.known_faces :=
    List.filter_eq_self.mpr hall
  rw [hfix, ← hA.1, ← hA.2]

/-- C3: add and remove preserve the equal-length, index-aligned shape of the
three gallery lists. -/
theorem gallery_ops_preserve_alignment (e : Engine) (nm addName : String)
    (det : Option (List ℚ)) (desc : String) (th : ℚ) (now : ℤ) (ip : String)
    (hA : Aligned e) :
    Aligned (addKnownFace e addName det desc th now ip).1 ∧
    Aligned (removeKnownFace e nm).1 := by
  constructor
  · cases det with
    | none => exact hA
    | some fe =>
      obtain ⟨hn, he⟩ := hA
      constructor
      · simp [addKnownFace, Aligned, hn]
      · simp [addKnownFace, Aligned, he]
  · rw [removeKnownFace_eq e nm hA]
    exact ⟨rfl, rfl⟩

/-- membership of an in-range `getD` lookup. -/
theorem getD_mem_of_lt (l : List α) (i : ℕ) (d : α) (h : i < l.length) :
    l.getD i d ∈ l := by
  induction l generalizing i with
  | nil => simp at h
  | cons a l ih =>
    cases i with
    | zero => simp
    | succ k =>
      have hmem := ih k (by simpa using h)
      rw [List.getD_eq_getElem?_getD] at hmem
      simp [hmem]

/-- squared distance of an encoding to itself is zero. -/
theorem dist2_self (a : List ℚ) : dist2 a a = 0 :=
  (dist2_eq_zero_iff a a rfl).mpr rfl

/-- an exact squared-distance comparison at zero succeeds iff the bound is
non-negative, which it is whenever `0 ≤ t`. -/
theorem sqrtLeB_zero_of_nonneg {t : ℚ} (h : 0 ≤ t) : sqrtLeB 0 t = true := by
  simp only [sqrtLeB, Bool.and_eq_true, decide_eq_true_eq]
  exact ⟨h, by positivity⟩

/-- C7 (amended): when the query encoding is identical to a stored encoding,
all gallery encodings have the query's dimension, the gallery is loaded and
its record list is at least index-aligned in length, then `recognize_face`
returns the name of the FIRST gallery entry whose encoding equals the query,
provided that entry's `confidence_threshold` is at most 1 and the tolerance
is non-negative. -/
theorem recognizeFace_exact_encoding_match (e : Engine) (enc : List ℚ)
    (tol : ℚ) (j : ℕ)
    (hload : e.is_loaded = true)
    (hlen : e.known_faces.length = e.face_encodings.length)
    (hdim : ∀ k ∈ e.face_encodings, k.length = enc.length)
    (hj : j < e.face_encodings.length)
    (hjeq : e.face_encodings.getD j [] = enc)
    (hjfirst : ∀ i < j, e.face_encodings.getD i [] ≠ enc)
    (hth : (e.known_faces.getD j dfltFace).confidence_threshold ≤ 1)
    (htol : 0 ≤ tol) :
    recognizeFace e enc tol = (e.known_faces.getD j dfltFace).name := by
  have hne : e.face_encodings ≠ [] := by
    intro hnil; rw [hnil] at hj; simp at hj
  have hemp' : e.face_encodings.isEmpty = false := by
    cases hb : e.face_encodings with
    | nil => exact absurd hb hne
    | cons a l => simp [hb]
  have hdne : e.face_encodings.map (fun k => dist2 k enc) ≠ [] := by
    simpa using hne
  set dists := e.face_encodings.map (fun k => dist2 k enc) with hdists
  have hjd : j < dists.length := by simpa [hdists] using hj
  have hdj : dists.getD j 0 = 0 := by
    rw [hdists, getD_map_of_lt (fun k => dist2 k enc) _ j [] 0 hj, hjeq, dist2_self]
  have hnn : ∀ k < dists.length, 0 ≤ dists.getD k 0 := by
    intro k hk
    have hk' : k < e.face_encodings.length := by simpa [hdists] using hk
    rw [hdists, getD_map_of_lt (fun k => dist2 k enc) _ k [] 0 hk']
    exact dist2_nonneg _ _
  have hstrict : ∀ i < j, dists.getD j 0 < dists.getD i 0 := by
    intro i hij
    have hi' : i < e.face_encodings.length := lt_trans hij hj
    have hmem := getD_mem_of_lt e.face_encodings i [] hi'
    have hd : dists.getD i 0 = dist2 (e.face_encodings.getD i []) enc := by
      rw [hdists, getD_map_of_lt (fun k => dist2 k enc) _ i [] 0 hi']
    have hnz : dist2 (e.face_encodings.getD i []) enc ≠ 0 := by
      intro hz
      exact hjfirst i hij
        ((dist2_eq_zero_iff _ enc (hdim _ hmem)).mp hz)
    have := dist2_nonneg (e.face_encodings.getD i []) enc
    rw [hdj, hd]
    rcases lt_or_eq_of_le this with hlt | heq
    · exact hlt
    · exact absurd heq.symm hnz
  have hargmin : argminIdx dists = j := by
    refine argminIdx_eq_of dists j hjd ?_ hstrict
    intro k hk
    rw [hdj]
    exact hnn k hk
  have hcontains :
      (e.face_encodings.map (fun k => sqrtLeB (dist2 k enc) tol)).contains true
        = true := by
    rw [contains_true_eq_any_id, any_map']
    refine List.any_eq_true.mpr ⟨e.face_encodings.getD j [], getD_mem_of_lt _ _ _ hj, ?_⟩
    simp only [id]
    rw [hjeq, dist2_self]
    exact sqrtLeB_zero_of_nonneg htol
  have hjk : j < e.known_faces.length := by omega
  have hmval : (e.face_encodings.map (fun k => sqrtLeB (dist2 k enc) tol)).getD j false
      = true := by
    rw [getD_map_of_lt (fun k => sqrtLeB (dist2 k enc) tol) _ j [] false hj, hjeq,
      dist2_self]
    exact sqrtLeB_zero_of_nonneg htol
  have hget : e.known_faces.get? j = some (e.known_faces.getD j dfltFace) :=
    get?_eq_some_getD _ _ _ hjk
  have hthB : sqrtLeB (dists.getD j 0)
      (1 - (e.known_faces.getD j dfltFace).confidence_threshold) = true := by
    rw [hdj]
    exact sqrtLeB_zero_of_nonneg (by linarith)
  unfold recognizeFace
  rw [hload]
  simp only [hemp', Bool.not_true, Bool.or_false, Bool.false_eq_true, if_false,
    Bool.true_and, Bool.not_false, if_true]
  rw [← hdists, hcontains]
  simp only [if_true]
  rw [hargmin, hmval, hget]
  simp only [if_true]
  rw [hthB]
  simp

/-- C7 counterexample: a loaded gallery stores "alice" with encoding `[0]`
and `confidence_threshold := 2`; the query `[0]` is identical to the stored
encoding and the tolerance `6/10` is non-negative, yet `recognize_face`
returns "Unknown" instead of "alice", because the derived confidence 1 is
below the stored per-face threshold. -/
theorem recognizeFace_exact_match_can_return_unknown :
    exEngineHighTh.is_loaded = true ∧
    exEngineHighTh.face_encodings.getD 0 [] = [0] ∧
    (exEngineHighTh.known_faces.getD 0 dfltFace).name = "alice" ∧
    recognizeFace exEngineHighTh [0] (6 / 10) = "Unknown" := by
  refine ⟨rfl, rfl, rfl, ?_⟩
  norm_num [recognizeFace, exEngineHighTh, dist2, sqrtLeB, argminIdx, dfltFace]

/-- C4 counterexample: on a successful match (the call returns the stored
name "alice", not "Unknown") the engine state is returned unchanged — the
matched record's `detection_count` is still 0 and `last_seen` is still
`none`, whereas the claim requires the count to be incremented and the
last-seen timestamp to be set. -/
theorem recognizeFace_successful_match_leaves_record_unchanged :
    (recognizeFaceS exEngineOk [0] (6 / 10)).2 = "alice" ∧
    (recognizeFaceS exEngineOk [0] (6 / 10)).1 = exEngineOk ∧
    ((recognizeFaceS exEngineOk [0] (6 / 10)).1.known_faces.getD 0 dfltFace).detection_count = 0 ∧
    ((recognizeFaceS exEngineOk [0] (6 / 10)).1.known_faces.getD 0 dfltFace).last_seen = none := by
  refine ⟨?_, rfl, rfl, rfl⟩
  show recognizeFace exEngineOk [0] (6 / 10) = "alice"
  norm_num [recognizeFace, exEngineOk, dist2, sqrtLeB, argminIdx]

/-- C4 (amended): `recognize_face` never mutates the engine state: the
threaded state comes back unchanged on every input, successful match or not,
even though `update_detection` (which would genuinely change the record) is
available on `KnownFace`. -/
theorem recognizeFaceS_no_mutation (e : Engine) (enc : List ℚ) (tol : ℚ) :
    (recognizeFaceS e enc tol).1 = e ∧
    ∀ (kf : KnownFace) (t : ℤ), updateDetection kf t ≠ kf := by
  refine ⟨rfl, ?_⟩
  intro kf t hcontra
  have hc := congrArg KnownFace.detection_count hcontra
  simp [updateDetection] at hc

/-- C5 counterexample: with no configured database path, `save` raises
`RuntimeError("No database path specified")` inside its own `try` block, but
the caller receives the ordinary failure outcome `False` — no exception
escapes. -/
theorem saveFaceDatabase_no_path_returns_false :
    saveBody exEngineNoPath false = Except.error "No database path specified" ∧
    saveFaceDatabase exEngineNoPath false = false :=
  ⟨rfl, rfl⟩

/-- C5 (amended): for every engine with no configured path, the "no target
path" error is raised internally and then swallowed by the method's own
catch-all handler, so the caller sees the ordinary failure result `false`
rather than an exception. -/
theorem saveFaceDatabase_no_path_swallows_error (e : Engine) (w : Bool)
    (h : e.model_path = none) :
    saveBody e w = Except.error "No database path specified" ∧
    saveFaceDatabase e w = false := by
  constructor
  · simp [saveBody, h]
  · simp [saveFaceDatabase, saveBody, h]

/-- witness for the amended C5 theorem at a concrete engine. -/
theorem saveFaceDatabase_no_path_swallows_error_witness :
    exEngineNoPath.model_path = none ∧
    saveFaceDatabase exEngineNoPath true = false :=
  ⟨rfl, (saveFaceDatabase_no_path_swallows_error exEngineNoPath true rfl).2⟩

/-- C9: loading an existing database file always reports success and sets
the loaded flag, whatever the three deserialized lists are; in particular a
file whose lists disagree in length (one record, zero encodings, missing
names key) loads successfully into a gallery that violates the alignment
invariant. -/
theorem loadFaceDatabase_no_alignment_check :
    (∀ (e : Engine) (p : String) (d : DBData),
      (loadFaceDatabase e p (some d)).2 = true ∧
      (loadFaceDatabase e p (some d)).1.is_loaded = true) ∧
    (loadFaceDatabase exEngineNoPath "faces.db" (some exDBBad)).2 = true ∧
    (loadFaceDatabase exEngineNoPath "faces.db" (some exDBBad)).1.is_loaded = true ∧
    ¬ Aligned (loadFaceDatabase exEngineNoPath "faces.db" (some exDBBad)).1 ∧
    (loadFaceDatabase exEngineNoPath "faces.db" (some exDBBad)).1.known_faces.length
      ≠ (loadFaceDatabase exEngineNoPath "faces.db" (some exDBBad)).1.face_encodings.length := by
  refine ⟨fun e p d => ⟨rfl, rfl⟩, rfl, rfl, ?_, by decide⟩
  intro hA
  have := hA.2
  simp [loadFaceDatabase, exDBBad, exEngineNoPath] at this

/-- C10: `validate_database` reports `is_valid = false` exactly on a length
mismatch between the three lists; a gallery of equal lengths whose single
encoding is empty gets an "Invalid encoding at index 0" entry in `errors`
while `is_valid` stays `true`. -/
theorem validateDatabase_invalid_only_on_length_mismatch :
    (∀ e : Engine, (validateDatabase e).is_valid =
      (decide (e.known_faces.length = e.face_encodings.length)
        && decide (e.face_encodings.length = e.face_names.length))) ∧
    (validateDatabase exEngineEmptyEnc).is_valid = true ∧
    "Invalid encoding at index 0" ∈ (validateDatabase exEngineEmptyEnc).errors ∧
    exEngineEmptyEnc.known_faces.length = exEngineEmptyEnc.face_encodings.length ∧
    exEngineEmptyEnc.face_encodings.length = exEngineEmptyEnc.face_names.length := by
  refine ⟨?_, rfl, ?_, rfl, rfl⟩
  · intro e
    by_cases h1 : e.known_faces.length = e.face_encodings.length <;>
      by_cases h2 : e.face_encodings.length = e.face_names.length <;>
        simp [validateDatabase, h1, h2] <;>
          first
          | rfl
          | (split <;> simp_all)
  · decide

/-- witness for the C1 equivalence theorem on a concrete two-person
gallery. -/
theorem recognizeFace_eq_specMatch_witness :
    exEngineTwo.known_faces.length = exEngineTwo.face_encodings.length ∧
    recognizeFace exEngineTwo [0, 0] (6 / 10) = specMatch exEngineTwo [0, 0] (6 / 10) :=
  ⟨rfl, recognizeFace_eq_specMatch exEngineTwo [0, 0] (6 / 10) rfl⟩

/-- witness for the C3 preservation theorem on a concrete gallery, an add of
"carol" and a remove of "alice". -/
theorem gallery_ops_preserve_alignment_witness :
    Aligned exEngineTwo ∧
    Aligned (addKnownFace exEngineTwo "carol" (some [2, 2]) "" (6 / 10) 0 "carol.jpg").1 ∧
    Aligned (removeKnownFace exEngineTwo "alice").1 :=
  ⟨⟨rfl, rfl⟩,
   (gallery_ops_preserve_alignment exEngineTwo "alice" "carol" (some [2, 2])
      "" (6 / 10) 0 "carol.jpg" ⟨rfl, rfl⟩).1,
   (gallery_ops_preserve_alignment exEngineTwo "alice" "carol" (some [2, 2])
      "" (6 / 10) 0 "carol.jpg" ⟨rfl, rfl⟩).2⟩

/-- witness for the C6 removal theorem: removing "alice" from the concrete
two-person gallery succeeds and leaves exactly "bob". -/
theorem removeKnownFace_removes_all_matching_witness :
    Aligned exEngineTwo ∧
    (removeKnownFace exEngineTwo "alice").2 = true ∧
    (removeKnownFace exEngineTwo "alice").1.face_names = ["bob"] := by
  have h := removeKnownFace_removes_all_matching exEngineTwo "alice" ⟨rfl, rfl⟩
  refine ⟨⟨rfl, rfl⟩, ?_, ?_⟩
  · rw [h.1]
  · rw [h.1]
    rfl

/-- witness for the amended C7 theorem: querying the concrete gallery with
its own stored encoding returns "alice". -/
theorem recognizeFace_exact_encoding_match_witness :
    exEngineOk.is_loaded = true ∧ (0 : ℚ) ≤ 6 / 10 ∧
    recognizeFace exEngineOk [0] (6 / 10) = "alice" := by
  refine ⟨rfl, by norm_num, ?_⟩
  have h := recognizeFace_exact_encoding_match exEngineOk [0] (6 / 10) 0
    rfl rfl ?_ ?_ rfl ?_ ?_ ?_
  · exact h
  · intro k hk
    have hk' : k = [0] := by simpa [exEngineOk] using hk
    rw [hk']
  · exact Nat.zero_lt_one
  · intro i hi
    exact absurd hi (Nat.not_lt_zero i)
  · norm_num [exEngineOk]
  · norm_num

end BlinkSync
